import Mathlib

/-!
# Wallswipe invite bot — data model and operational embedding

A shallow embedding of the Telegram referral/reward bot:

* `src/unnamed/part_001` — `UserSchema` (Mongo collection `User`)
* `src/models/Reward.js` — `RewardSchema` and `ReferralSchema`
* `src/unnamed/part_000` — the bot itself: helpers (`ensureUser`,
  `getOrCreateInviteLinkForUser`, `isAdmin`, `sendDueRewards`,
  `progressText`), the user and admin command handlers, and the
  `chat_member` join-tracking handler.

Persistent Mongo state (`User`, `Reward`, `Referral` collections) plus the
process-local `pendingRewardUploads` map are gathered into one `State`
record.  Each bot handler becomes a function `Config → … → State → State`
(returning in addition the list of outbound messages where a claim needs
them).  External effects whose outcome the code branches on — Telegram
`sendMessage` / `sendDocument` succeeding or throwing — are supplied as
boolean oracles.  JavaScript numbers appearing here (user ids, counters,
thresholds) are embedded as `Int` (counters derived from list lengths as
`Nat`); all values the program manipulates in these fields are integers.
-/

/-- `UserSchema` of `src/unnamed/part_001`: one document of the `User`
collection.  `createdAt` is dropped (no claim mentions time). -/
structure User where
  userId : Int
  username : Option String
  inviteLink : Option String
  invitedUsers : List Int
  invitesCount : Nat
  rewardsClaimed : List String
  deriving DecidableEq, Repr

/-- `RewardSchema` of `src/models/Reward.js` (without `createdAt`). -/
structure Reward where
  rewardId : String
  fileId : String
  threshold : Int
  deriving DecidableEq, Repr

/-- `ReferralSchema` of `src/models/Reward.js` (without `date`); the
collection carries a unique index on `joinedUserId`.  `chatId` is dropped:
it is optional metadata never read back. -/
structure Referral where
  joinedUserId : Int
  inviterUserId : Int
  deriving DecidableEq, Repr

/-- An entry of the process-local `pendingRewardUploads` map:
`adminId -> \x7b rewardId, threshold \x7d`. -/
structure PendingUpload where
  adminId : Int
  rewardId : String
  threshold : Int
  deriving DecidableEq, Repr

/-- The persistent collections plus the in-memory upload-session map. -/
structure State where
  users : List User
  rewards : List Reward
  referrals : List Referral
  pending : List PendingUpload
  deriving DecidableEq, Repr

/-- The configured channel: `CHANNEL_CHAT_ID = normalizeChatId(CHANNEL_ID)`
is either the `@name` string (public form) or a numeric chat id. -/
inductive ChanCfg where
  | handle (h : String)
  | num (n : Int)
  deriving DecidableEq, Repr

/-- Startup configuration: `CHANNEL_CHAT_ID`, `ADMIN_ID`,
`INVITES_PER_REWARD`. -/
structure Config where
  channel : ChanCfg
  admin : Int
  step : Int
  deriving DecidableEq, Repr

/-! ## Persistence primitives -/

/-- `User.findOne(\x7b userId \x7d)`. -/
def findUserById (s : State) (uid : Int) : Option User :=
  s.users.find? (fun u => u.userId == uid)

/-- `User.findOne(\x7b inviteLink \x7d)`. -/
def findUserByLink (s : State) (link : String) : Option User :=
  s.users.find? (fun u => u.inviteLink == some link)

/-- `user.save()`: write the document back over the stored one with the
same `userId` (the collection has a unique index on `userId`). -/
def saveUser (s : State) (u : User) : State :=
  { s with users := s.users.map (fun v => if v.userId == u.userId then u else v) }

/-- Does a `Referral` document for this joined user already exist?  The
unique index on `joinedUserId` makes `Referral.create` throw exactly when
this holds. -/
def hasReferral (s : State) (joinedUserId : Int) : Bool :=
  s.referrals.any (fun r => r.joinedUserId == joinedUserId)

/-- Number of committed referral records naming this joined identity. -/
def referralCount (s : State) (joinedUserId : Int) : Nat :=
  (s.referrals.filter (fun r => r.joinedUserId == joinedUserId)).length

/-- `Reward.findOneAndUpdate(\x7b rewardId \x7d, …, \x7b upsert: true \x7d)`:
replace the document with this `rewardId`, or insert it if absent. -/
def upsertReward (s : State) (r : Reward) : State :=
  if s.rewards.any (fun x => x.rewardId == r.rewardId) then
    { s with rewards := s.rewards.map (fun x => if x.rewardId == r.rewardId then r else x) }
  else
    { s with rewards := s.rewards ++ [r] }

/-- `pendingRewardUploads.set(adminId, …)`: replace-or-insert keyed by
admin id. -/
def pendingSet (s : State) (p : PendingUpload) : State :=
  if s.pending.any (fun q => q.adminId == p.adminId) then
    { s with pending := s.pending.map (fun q => if q.adminId == p.adminId then p else q) }
  else
    { s with pending := s.pending ++ [p] }

/-- `pendingRewardUploads.get(adminId)`. -/
def pendingGet (s : State) (adminId : Int) : Option PendingUpload :=
  s.pending.find? (fun q => q.adminId == adminId)

/-- `pendingRewardUploads.delete(adminId)`. -/
def pendingDelete (s : State) (adminId : Int) : State :=
  { s with pending := s.pending.filter (fun q => !(q.adminId == adminId)) }

/-! ## Reward dispatch (`sendDueRewards`) -/

/-- `Reward.find().sort(\x7b threshold: 1 \x7d)`: the catalog in ascending
threshold order (Mongo's sort, embedded as an insertion sort). -/
def sortByThreshold (l : List Reward) : List Reward :=
  l.insertionSort (fun a b => a.threshold ≤ b.threshold)

/-- The `toSend` list of `sendDueRewards`: rewards (in ascending threshold
order) whose threshold is at most the inviter's `invitesCount` and whose
`rewardId` the inviter has not claimed. -/
def dueRewards (catalog : List Reward) (u : User) : List Reward :=
  (sortByThreshold catalog).filter
    (fun r => decide (r.threshold ≤ (u.invitesCount : Int)) && !(u.rewardsClaimed.contains r.rewardId))

/-- The delivery loop of `sendDueRewards` on the in-memory user document:
for each due reward, attempt `telegram.sendDocument`; when the oracle
`deliver` reports success push its `rewardId` onto `rewardsClaimed`, on
failure log and continue with the next reward. -/
def sendDueRewardsUser (deliver : String → Bool) (catalog : List Reward) (u : User) : User :=
  let toSend := dueRewards catalog u
  { u with
    rewardsClaimed :=
      toSend.foldl (fun acc r => if deliver r.rewardId then acc ++ [r.rewardId] else acc)
        u.rewardsClaimed }

/-- `sendDueRewards(ctx, inviter)` at the state level: fetch the sorted
catalog, run the delivery loop, and `inviter.save()` when `toSend` was
non-empty (the code's `if (toSend.length) await inviter.save()`). -/
def sendDueRewards (deliver : String → Bool) (s : State) (inviter : User) : State :=
  let toSend := dueRewards s.rewards inviter
  if toSend.isEmpty then s
  else saveUser s (sendDueRewardsUser deliver s.rewards inviter)

/-! ## Progress computation (`progressText`) -/

/-- `Math.ceil((invites + 1) / step) * step`, the next-reward threshold of
`progressText`; over naturals with positive `step`, the real ceiling is
`((invites + 1) + step - 1) / step`. -/
def progressNext (invites step : Nat) : Nat :=
  ((invites + 1) + step - 1) / step * step

/-- `done = invites % step; left = step - done` of `progressText`. -/
def progressLeft (invites step : Nat) : Nat :=
  step - invites % step

/-- The message `progressText` builds from the two numbers. -/
def progressText (invites step : Nat) : String :=
  "You have **" ++ toString invites ++ "** invites.\nNext reward at **" ++
    toString (progressNext invites step) ++ "** (only " ++
    toString (progressLeft invites step) ++ " to go)."

/-! ## Argument parsing and small helpers -/

/-- The numeric value of a non-empty all-digit character list; `none` on
an empty list or any non-digit. -/
def digitsToNat (ds : List Char) : Option Nat :=
  match ds with
  | [] => none
  | _ =>
    ds.foldl (fun acc c =>
      match acc with
      | none => none
      | some n => if c.isDigit then some (10 * n + (c.toNat - 48)) else none) (some 0)

/-- Models the JavaScript `Number()` conversion as applied to the
whitespace-free argument tokens of this program: an optional-sign decimal
integer string parses to its value, anything else (including a missing
`parts[2]`, i.e. `Number(undefined)`) is `NaN`, embedded as `none`.
(Fractional, exponent, hexadecimal and `Infinity` forms are outside this
model; every value exercised here is an optional-sign integer literal or a
non-numeric word.)  `Number.isFinite` holds exactly of the `some` results. -/
def jsNumber (s : String) : Option Int :=
  match s.data with
  | '-' :: ds => (digitsToNat ds).map (fun n => -(n : Int))
  | '+' :: ds => (digitsToNat ds).map (fun n => (n : Int))
  | ds => (digitsToNat ds).map (fun n => (n : Int))

/-- `isAdmin(ctx)`: `ctx.from && ctx.from.id === ADMIN_ID`. -/
def isAdmin (cfg : Config) (fromId : Option Int) : Bool :=
  match fromId with
  | some i => i == cfg.admin
  | none => false

/-- Does the first character list start with the second? -/
def startsWithList : List Char → List Char → Bool
  | _, [] => true
  | [], _ :: _ => false
  | a :: as, b :: bs => a == b && startsWithList as bs

/-- Does the first character list contain the second as a contiguous run? -/
def containsSubList : List Char → List Char → Bool
  | [], needle => needle.isEmpty
  | a :: t, needle => startsWithList (a :: t) needle || containsSubList t needle

/-- JavaScript `String.prototype.includes`. -/
def strIncludes (hay needle : String) : Bool :=
  containsSubList hay.data needle.data

/-- JavaScript `String.prototype.endsWith`. -/
def strEndsWith (hay suffix : String) : Bool :=
  startsWithList hay.data.reverse suffix.data.reverse

/-- JavaScript `String.prototype.toLowerCase` (ASCII range suffices for
the file names compared here). -/
def strToLower (s : String) : String :=
  ⟨s.data.map Char.toLower⟩

/-- An incoming Telegram document: `ctx.message.document`. -/
structure TgDocument where
  mimeType : Option String
  fileName : Option String
  fileId : String
  deriving DecidableEq, Repr

/-- The ZIP check of the `document` handler:
`(doc.mime_type && doc.mime_type.includes('zip')) ||
 (doc.file_name && doc.file_name.toLowerCase().endsWith('.zip'))`. -/
def isZipDocument (doc : TgDocument) : Bool :=
  (match doc.mimeType with
   | some m => strIncludes m "zip"
   | none => false) ||
  (match doc.fileName with
   | some f => strEndsWith (strToLower f) ".zip"
   | none => false)

/-! ## User commands (`/start`, `/link`, `/myinvites`, `/rewards`, `/top`) -/

/-- `ensureUser(ctx.from)`: find the profile by `userId`; create it with
default fields if absent; refresh a changed `username`. -/
def ensureUser (s : State) (fromId : Int) (uname : Option String) : State × User :=
  match findUserById s fromId with
  | some u =>
      if u.username = uname then (s, u)
      else
        let u' := { u with username := uname }
        (saveUser s u', u')
  | none =>
      let u : User := ⟨fromId, uname, none, [], 0, []⟩
      ({ s with users := s.users ++ [u] }, u)

/-- `getOrCreateInviteLinkForUser(user)`: return the stored handle
unchanged if present; otherwise bind the freshly issued link
(`linkResult = some link`) to the profile and save.  `linkResult = none`
stands for `createChatInviteLink` throwing (e.g. a permission error), which
aborts the calling handler with no further state change. -/
def getOrCreateInviteLink (s : State) (u : User) (linkResult : Option String) : State :=
  match u.inviteLink with
  | some _ => s
  | none =>
      match linkResult with
      | some link => saveUser s { u with inviteLink := some link }
      | none => s

/-- State effect of `bot.start` and of `bot.command('link')`: ensure the
profile, then get-or-create its invite link. -/
def startHandler (s : State) (fromId : Int) (uname : Option String)
    (linkResult : Option String) : State :=
  let su := ensureUser s fromId uname
  getOrCreateInviteLink su.1 su.2 linkResult

/-- State effect of `bot.command('myinvites')` and `bot.command('rewards')`
(read-only apart from `ensureUser`). -/
def ensureOnlyHandler (s : State) (fromId : Int) (uname : Option String) : State :=
  (ensureUser s fromId uname).1

/-! ## Admin commands -/

/-- `bot.command('stats')`. -/
def statsHandler (cfg : Config) (fromId : Option Int) (s : State) : State × List String :=
  if !(isAdmin cfg fromId) then (s, [])
  else
    (s, ["📊 Stats\nUsers: " ++ toString s.users.length ++
         "\nReferrals (unique joins): " ++ toString s.referrals.length ++
         "\nActive inviters: " ++
         toString (s.users.filter (fun u => decide (0 < u.invitesCount))).length])

/-- The reply text of `/user` for a found profile. -/
def describeUser (u : User) : String :=
  "👤 " ++ (match u.username with | some n => "@" ++ n | none => toString u.userId) ++
  "\nUserId: " ++ toString u.userId ++
  "\nInvites: " ++ toString u.invitesCount ++
  "\nClaimed: " ++ (if u.rewardsClaimed.isEmpty then "none" else String.intercalate ", " u.rewardsClaimed) ++
  "\nInvite link: " ++ (match u.inviteLink with | some l => l | none => "not generated") ++
  "\nInvited users: " ++ toString u.invitedUsers.length

/-- `bot.command('user')`: `arg` is the already-extracted argument text
(`ctx.message.text.split(' ').slice(1).join(' ').trim()`). -/
def userLookupHandler (cfg : Config) (fromId : Option Int) (arg : String)
    (s : State) : State × List String :=
  if !(isAdmin cfg fromId) then (s, [])
  else if arg = "" then (s, ["Usage: /user <id|@username>"])
  else
    let u? :=
      if arg.startsWith "@" then
        s.users.find? (fun u => u.username == some (arg.drop 1))
      else
        match jsNumber arg with
        | some n => findUserById s n
        | none => none
    match u? with
    | none => (s, ["User not found."])
    | some u => (s, [describeUser u])

/-- `bot.command('broadcast')`: DM every user (per-recipient failures are
tallied, not escalated), then reply with the tally.  `sendOk` is the
send-success oracle; the returned list holds the successfully delivered
DMs followed by the summary reply. -/
def broadcastHandler (cfg : Config) (fromId : Option Int) (msg : String)
    (sendOk : Int → Bool) (s : State) : State × List String :=
  if !(isAdmin cfg fromId) then (s, [])
  else if msg = "" then (s, ["Usage: /broadcast <message>"])
  else
    let ok := (s.users.filter (fun u => sendOk u.userId)).length
    let fail := s.users.length - ok
    (s, (s.users.filter (fun u => sendOk u.userId)).map (fun _ => msg) ++
        ["Broadcast done. ✅ " ++ toString ok ++ " / ❌ " ++ toString fail])

/-- `bot.command('rewardslist')`. -/
def rewardslistHandler (cfg : Config) (fromId : Option Int) (s : State) :
    State × List String :=
  if !(isAdmin cfg fromId) then (s, [])
  else if s.rewards.isEmpty then (s, ["No rewards saved."])
  else
    (s, ["🎁 Rewards:\n" ++ String.intercalate "\n"
          ((sortByThreshold s.rewards).map
            (fun r => "#" ++ r.rewardId ++ " → threshold " ++ toString r.threshold))])

/-- The threshold bound by `/reward <id> [threshold]`:
`Number(parts[2])` when that is not `NaN`; otherwise
`Number(rewardId) * INVITES_PER_REWARD` when the id is a finite number,
else `INVITES_PER_REWARD` itself. -/
def rewardCmdThreshold (cfg : Config) (rewardId : String) (thrArg : Option String) : Int :=
  match thrArg.bind jsNumber with
  | some t => t
  | none =>
      match jsNumber rewardId with
      | some n => n * cfg.step
      | none => cfg.step

/-- `bot.command('reward')`: `parts = ctx.message.text.trim().split(/\s+/)`.
Opens (or overwrites) the admin's pending-upload session. -/
def rewardCommandHandler (cfg : Config) (fromId : Option Int) (parts : List String)
    (s : State) : State × List String :=
  if !(isAdmin cfg fromId) then (s, [])
  else
    match fromId with
    | none => (s, [])
    | some uid =>
      match parts with
      | _cmd :: rewardId :: rest =>
          let threshold := rewardCmdThreshold cfg rewardId rest.head?
          (pendingSet s ⟨uid, rewardId, threshold⟩,
           ["Send the ZIP file for reward #" ++ rewardId ++
            " (threshold " ++ toString threshold ++ ")."])
      | _ => (s, ["Usage: /reward <id> [threshold]"])

/-- `bot.on('document')`: accept a ZIP upload while a session is open for
this admin, upsert the `Reward`, close the session. -/
def documentHandler (cfg : Config) (fromId : Option Int) (doc : TgDocument)
    (s : State) : State × List String :=
  if !(isAdmin cfg fromId) then (s, [])
  else
    match fromId with
    | none => (s, [])
    | some uid =>
      match pendingGet s uid with
      | none => (s, [])
      | some p =>
        if !(isZipDocument doc) then (s, ["Please send a ZIP file."])
        else
          (pendingDelete (upsertReward s ⟨p.rewardId, doc.fileId, p.threshold⟩) uid,
           ["Saved reward #" ++ p.rewardId ++ " at threshold " ++ toString p.threshold ++ "."])

/-! ## Join tracking (`bot.on('chat_member')`) -/

/-- The fields of a `chat_member` update the handler reads. -/
structure ChatMemberEvent where
  chatId : Int
  chatUsername : Option String
  oldStatus : Option String
  newStatus : Option String
  joinedUserId : Int
  inviteLink : Option String
  deriving DecidableEq, Repr

/-- The channel check of the `chat_member` handler, lines 248–258 of the
bot source, translated branch by branch.

The outer condition compares `chatId` (a number) with
`typeof CHANNEL_CHAT_ID === 'string' ? (upd.chat?.username ? '@'+username : chatId) : CHANNEL_CHAT_ID`
under `!==`:
* handle configuration, event chat has a username — a number is `!==` any
  string, so the condition is true and the inner `@name` comparison against
  `CHANNEL_ID` decides;
* handle configuration, event chat has **no** username — the comparison is
  `chatId !== chatId`, false, so the body is skipped and the event passes
  with no channel check at all;
* numeric configuration — the outer comparison is `chatId !== CHANNEL_CHAT_ID`
  and the inner numeric branch returns on mismatch.

(`CHANNEL_CHAT_ID` is a string only when `CHANNEL_ID` starts with `'@'`,
by `normalizeChatId`, so the inner `startsWith('@')` test is true on the
handle branch.) -/
def channelGuardPasses (cfg : ChanCfg) (e : ChatMemberEvent) : Bool :=
  match cfg with
  | .num n => e.chatId == n
  | .handle h =>
      match e.chatUsername with
      | none => true
      | some u => ("@" ++ u) == h

/-- The membership-transition filter:
`newStatus === 'member' && oldStatus !== 'member'`. -/
def becomesMember (e : ChatMemberEvent) : Bool :=
  e.newStatus == some "member" && !(e.oldStatus == some "member")

/-- The inviter-stats update after a successful `Referral.create`: push the
joined id onto `invitedUsers` unless already present, then recompute
`invitesCount` as that list's length. -/
def creditedInviter (inviter : User) (joinedUserId : Int) : User :=
  let inviter1 :=
    if inviter.invitedUsers.contains joinedUserId then inviter
    else { inviter with invitedUsers := inviter.invitedUsers ++ [joinedUserId] }
  { inviter1 with invitesCount := inviter1.invitedUsers.length }

/-- The committed-attribution tail of the `chat_member` handler, run after
a successful `Referral.create` for joiner `j`: append the record, push `j`
onto the inviter's `invitedUsers` (unless present), recompute
`invitesCount`, save the profile, and — when the notification DM succeeds —
run `sendDueRewards`. -/
def commitState (notifyOk : Bool) (deliver : String → Bool) (s : State) (j : Int)
    (inviter : User) : State :=
  let s1 : State := { s with referrals := s.referrals ++ [⟨j, inviter.userId⟩] }
  let inviter2 := creditedInviter inviter j
  let s2 := saveUser s1 inviter2
  if notifyOk then sendDueRewards deliver s2 inviter2 else s2

/-- The `chat_member` handler.  `notifyOk` is the outcome oracle for the
`sendMessage` DM to the inviter (the `sendDueRewards` call sits after it in
the same `try`, so a failed DM also skips dispatch); `deliver` is the
per-reward `sendDocument` outcome oracle. -/
def processChatMember (cfg : Config) (notifyOk : Bool) (deliver : String → Bool)
    (s : State) (e : ChatMemberEvent) : State :=
  if !(channelGuardPasses cfg.channel e) then s
  else if !(becomesMember e) then s
  else
    match e.inviteLink with
    | none => s
    | some link =>
      match findUserByLink s link with
      | none => s
      | some inviter =>
        if inviter.userId == e.joinedUserId then s
        else if hasReferral s e.joinedUserId then s
        else
          commitState notifyOk deliver s e.joinedUserId inviter

/-! ## The system as one step function -/

/-- One incoming update, dispatched to its handler.  Oracles for external
outcomes (issued link, DM success, per-reward delivery) ride along with
the operation. -/
inductive Op where
  | start (fromId : Int) (uname : Option String) (linkResult : Option String)
  | linkCmd (fromId : Int) (uname : Option String) (linkResult : Option String)
  | myinvites (fromId : Int) (uname : Option String)
  | rewardsCmd (fromId : Int) (uname : Option String)
  | top
  | stats (fromId : Option Int)
  | userLookup (fromId : Option Int) (arg : String)
  | broadcast (fromId : Option Int) (msg : String) (sendOk : Int → Bool)
  | rewardslist (fromId : Option Int)
  | rewardCmd (fromId : Option Int) (parts : List String)
  | document (fromId : Option Int) (doc : TgDocument)
  | chatMember (notifyOk : Bool) (deliver : String → Bool) (e : ChatMemberEvent)

/-- The state transition of one update. -/
def step (cfg : Config) (s : State) : Op → State
  | .start fromId uname linkResult => startHandler s fromId uname linkResult
  | .linkCmd fromId uname linkResult => startHandler s fromId uname linkResult
  | .myinvites fromId uname => ensureOnlyHandler s fromId uname
  | .rewardsCmd fromId uname => ensureOnlyHandler s fromId uname
  | .top => s
  | .stats fromId => (statsHandler cfg fromId s).1
  | .userLookup fromId arg => (userLookupHandler cfg fromId arg s).1
  | .broadcast fromId msg sendOk => (broadcastHandler cfg fromId msg sendOk s).1
  | .rewardslist fromId => (rewardslistHandler cfg fromId s).1
  | .rewardCmd fromId parts => (rewardCommandHandler cfg fromId parts s).1
  | .document fromId doc => (documentHandler cfg fromId doc s).1
  | .chatMember notifyOk deliver e => processChatMember cfg notifyOk deliver s e

/-- A whole run of `chat_member` events (each with its oracles). -/
def processJoins (cfg : Config) : State → List (Bool × (String → Bool) × ChatMemberEvent) → State
  | s, [] => s
  | s, (n, d, e) :: rest => processJoins cfg (processChatMember cfg n d s e) rest

/-! ## Observations -/

/-- The stored `rewardsClaimed` of the profile with this id (`[]` when no
profile exists). -/
def claimedOf (s : State) (uid : Int) : List String :=
  ((findUserById s uid).map (fun u => u.rewardsClaimed)).getD []

/-- The stored `invitesCount` of the profile with this id. -/
def invitesCountOf (s : State) (uid : Int) : Nat :=
  ((findUserById s uid).map (fun u => u.invitesCount)).getD 0

/-- The stored `invitedUsers` of the profile with this id. -/
def invitedUsersOf (s : State) (uid : Int) : List Int :=
  ((findUserById s uid).map (fun u => u.invitedUsers)).getD []

/-- The `userId` column has a unique index: stored ids are pairwise
distinct. -/
def UsersNodup (s : State) : Prop :=
  (s.users.map (fun u => u.userId)).Nodup

/-- The spec's profile invariant: every stored profile's `invitesCount`
equals the size of its `invitedUsers` set. -/
def CountInvariant (s : State) : Prop :=
  ∀ u ∈ s.users, u.invitesCount = u.invitedUsers.length

/-! ## Concrete scenario data (the spec's testable-property scenarios) -/

/-- An inviter profile with credit 12 and an empty claimed set. -/
def exampleInviter : User :=
  ⟨7, some "inv", some "L", [1, 2, 3, 4, 5, 6, 7, 8, 9, 10, 11, 12], 12, []⟩

/-- The two-tier catalog `id 1 at threshold 5, id 2 at threshold 10`,
registered in descending threshold order. -/
def exampleCatalog : List Reward :=
  [⟨"2", "f2", 10⟩, ⟨"1", "f1", 5⟩]

/-- A bot configured with the public-handle channel form. -/
def handleConfig : Config := ⟨.handle "@wallswipe", 1, 5⟩

/-- One stored profile (id 7) owning invite link `"L"`; no rewards, no
referrals, no sessions. -/
def oneInviterState : State := ⟨[⟨7, some "inv", some "L", [], 0, []⟩], [], [], []⟩

/-- A join event from the chat with numeric id 999 that has **no** public
username — a channel other than the configured `@wallswipe` — joining
identity 42, arriving through invite link `"L"`. -/
def foreignChatJoin : ChatMemberEvent :=
  ⟨999, none, some "left", some "member", 42, some "L"⟩

/-- A join event from the configured channel itself (username
`wallswipe`), joining identity 42, arriving through invite link `"L"`. -/
def matchingJoin : ChatMemberEvent :=
  ⟨999, some "wallswipe", some "left", some "member", 42, some "L"⟩

/-! ## Auxiliary lemmas -/

/-- `find?` over a map that replaces elements matched by `g` with a fixed
`b`: when the first `p`-match is `g`-matched and `p b` holds, the search in
the mapped list yields `b`. -/
theorem find?_map_replace {α : Type} {p g : α → Bool} {b a : α} {l : List α}
    (hb : p b = true) (hfirst : l.find? p = some a) (hga : g a = true) :
    (l.map (fun v => if g v then b else v)).find? p = some b := by
  induction l with
  | nil => simp at hfirst
  | cons x t ih =>
      by_cases hx : p x = true
      · rw [List.find?_cons_of_pos _ hx] at hfirst
        injection hfirst with hax
        subst hax
        by_cases hgx : g x = true
        · simp [hgx, List.find?_cons_of_pos _ hb]
        · exact absurd hga hgx
      · rw [List.find?_cons_of_neg _ hx] at hfirst
        by_cases hgx : g x = true
        · simp only [List.map_cons, if_pos hgx]
          rw [List.find?_cons_of_pos _ hb]
        · simp only [List.map_cons, if_neg hgx]
          rw [List.find?_cons_of_neg _ hx]
          exact ih hfirst

/-- `find?` by a key through a map that preserves that key. -/
theorem find?_map_key {α : Type} {κ : Type} (key : α → κ) [BEq κ] [LawfulBEq κ]
    (f : α → α) (hf : ∀ v, key (f v) = key v) (l : List α) (k : κ) :
    (l.map f).find? (fun v => key v == k) =
      (l.find? (fun v => key v == k)).map f := by
  rw [List.find?_map]
  have hp : ((fun v => key v == k) ∘ f) = (fun v => key v == k) := by
    funext v
    simp [Function.comp, hf]
  rw [hp]

/-- In a list whose keys are pairwise distinct, searching for a member's
key finds that member. -/
theorem find?_key_of_nodup {α : Type} {κ : Type} (key : α → κ) [BEq κ] [LawfulBEq κ]
    {l : List α} (hn : (l.map key).Nodup) {a : α} (ha : a ∈ l) :
    l.find? (fun v => key v == key a) = some a := by
  induction l with
  | nil => simp at ha
  | cons x t ih =>
      rcases List.mem_cons.mp ha with rfl | hat
      · simp
      · by_cases hx : key x = key a
        · exfalso
          have : key a ∈ t.map key := List.mem_map_of_mem key hat
          simp only [List.map_cons, List.nodup_cons] at hn
          exact hn.1 (hx ▸ this)
        · rw [List.find?_cons_of_neg _ (by simp [hx])]
          exact ih (by simp only [List.map_cons, List.nodup_cons] at hn; exact hn.2) hat

/-- The delivery loop of `sendDueRewards`, characterized: starting from
`acc`, it appends exactly the ids of the rewards whose delivery succeeded,
in list order. -/
theorem foldl_deliver_eq {deliver : String → Bool} (l : List Reward) (acc : List String) :
    l.foldl (fun acc r => if deliver r.rewardId then acc ++ [r.rewardId] else acc) acc =
      acc ++ (l.filter (fun r => deliver r.rewardId)).map (fun r => r.rewardId) := by
  induction l generalizing acc with
  | nil => simp
  | cons r t ih =>
      by_cases hd : deliver r.rewardId = true
      · simp [List.foldl_cons, hd, ih, List.filter_cons]
      · simp [List.foldl_cons, hd, ih, List.filter_cons]

/-! ## `saveUser` lemmas -/

/-- Replacing the document with `x.userId` leaves every stored `userId`
unchanged. -/
theorem userId_replace (x v : User) :
    ((if v.userId == x.userId then x else v)).userId = v.userId := by
  by_cases h : v.userId == x.userId
  · simp only [if_pos h]
    exact (eq_of_beq h).symm
  · simp only [if_neg h]

@[simp] theorem rewards_saveUser (s : State) (x : User) : (saveUser s x).rewards = s.rewards := rfl

@[simp] theorem referrals_saveUser (s : State) (x : User) : (saveUser s x).referrals = s.referrals := rfl

@[simp] theorem pending_saveUser (s : State) (x : User) : (saveUser s x).pending = s.pending := rfl

/-- `saveUser` permutes no ids: the stored id column is unchanged. -/
theorem map_userId_saveUser (s : State) (x : User) :
    (saveUser s x).users.map (fun u => u.userId) = s.users.map (fun u => u.userId) := by
  simp only [saveUser, List.map_map]
  exact List.map_congr_left (fun v _ => userId_replace x v)

theorem usersNodup_saveUser (s : State) (x : User) (h : UsersNodup s) :
    UsersNodup (saveUser s x) := by
  unfold UsersNodup
  rw [map_userId_saveUser]
  exact h

/-- Lookup by id after a save: the found document, transformed. -/
theorem findUserById_saveUser (s : State) (x : User) (uid : Int) :
    findUserById (saveUser s x) uid =
      (findUserById s uid).map (fun v => if v.userId == x.userId then x else v) := by
  unfold findUserById saveUser
  exact find?_map_key (fun u : User => u.userId) _ (userId_replace x) s.users uid

theorem claimedOf_saveUser (s : State) (x : User) (uid : Int) :
    claimedOf (saveUser s x) uid =
      match findUserById s uid with
      | none => []
      | some u0 => if u0.userId == x.userId then x.rewardsClaimed else u0.rewardsClaimed := by
  unfold claimedOf
  rw [findUserById_saveUser]
  cases h : findUserById s uid with
  | none => rfl
  | some u0 =>
      simp only [Option.map_map, Option.map_some, Option.getD_some, Function.comp]
      by_cases hc : u0.userId = x.userId <;> simp [hc]

theorem invitesCountOf_saveUser (s : State) (x : User) (uid : Int) :
    invitesCountOf (saveUser s x) uid =
      match findUserById s uid with
      | none => 0
      | some u0 => if u0.userId == x.userId then x.invitesCount else u0.invitesCount := by
  unfold invitesCountOf
  rw [findUserById_saveUser]
  cases h : findUserById s uid with
  | none => rfl
  | some u0 =>
      simp only [Option.map_map, Option.map_some, Option.getD_some, Function.comp]
      by_cases hc : u0.userId = x.userId <;> simp [hc]

theorem invitedUsersOf_saveUser (s : State) (x : User) (uid : Int) :
    invitedUsersOf (saveUser s x) uid =
      match findUserById s uid with
      | none => []
      | some u0 => if u0.userId == x.userId then x.invitedUsers else u0.invitedUsers := by
  unfold invitedUsersOf
  rw [findUserById_saveUser]
  cases h : findUserById s uid with
  | none => rfl
  | some u0 =>
      simp only [Option.map_map, Option.map_some, Option.getD_some, Function.comp]
      by_cases hc : u0.userId = x.userId <;> simp [hc]

/-- With distinct stored ids, a member is the document its own id finds. -/
theorem findUserById_of_mem (s : State) (a : User) (ha : a ∈ s.users)
    (hn : UsersNodup s) : findUserById s a.userId = some a :=
  find?_key_of_nodup (fun u : User => u.userId) hn ha

/-- Saving a document derived (id-preserving, claims only growing) from a
stored one never shrinks any profile's claimed list. -/
theorem claimedOf_mono_saveUser (s : State) (a x : User) (uid : Int)
    (ha : a ∈ s.users) (hid : x.userId = a.userId)
    (hc : a.rewardsClaimed ⊆ x.rewardsClaimed) (hn : UsersNodup s) :
    claimedOf s uid ⊆ claimedOf (saveUser s x) uid := by
  rw [claimedOf_saveUser]
  unfold claimedOf
  cases h : findUserById s uid with
  | none => simp
  | some u0 =>
      simp only [Option.map_some, Option.getD_some]
      by_cases he : u0.userId == x.userId
      · have hu0 : u0 ∈ s.users := List.mem_of_find?_eq_some h
        have : u0 = a :=
          List.inj_on_of_nodup_map hn hu0 ha ((eq_of_beq he).trans hid)
        subst this
        simp only [he, if_pos]
        exact hc
      · simp [he]

/-- `saveUser` with a document satisfying the count invariant preserves the
invariant. -/
theorem countInvariant_saveUser (s : State) (x : User) (h : CountInvariant s)
    (hx : x.invitesCount = x.invitedUsers.length) : CountInvariant (saveUser s x) := by
  intro u hu
  simp only [saveUser, List.mem_map] at hu
  obtain ⟨v, hv, hfv⟩ := hu
  by_cases hc : v.userId == x.userId
  · rw [if_pos hc] at hfv
    exact hfv ▸ hx
  · rw [if_neg hc] at hfv
    exact hfv ▸ h v hv

/-! ## `sendDueRewards` and `processChatMember` shape lemmas -/

@[simp] theorem referrals_sendDueRewards (d : String → Bool) (s : State) (u : User) :
    (sendDueRewards d s u).referrals = s.referrals := by
  unfold sendDueRewards
  by_cases h : (dueRewards s.rewards u).isEmpty = true <;> simp [h]

@[simp] theorem rewards_sendDueRewards (d : String → Bool) (s : State) (u : User) :
    (sendDueRewards d s u).rewards = s.rewards := by
  unfold sendDueRewards
  by_cases h : (dueRewards s.rewards u).isEmpty = true <;> simp [h]

@[simp] theorem pending_sendDueRewards (d : String → Bool) (s : State) (u : User) :
    (sendDueRewards d s u).pending = s.pending := by
  unfold sendDueRewards
  by_cases h : (dueRewards s.rewards u).isEmpty = true <;> simp [h]

/-- `sendDueRewardsUser` touches only `rewardsClaimed`. -/
@[simp] theorem userId_sendDueRewardsUser (d : String → Bool) (c : List Reward) (u : User) :
    (sendDueRewardsUser d c u).userId = u.userId := rfl

@[simp] theorem inviteLink_sendDueRewardsUser (d : String → Bool) (c : List Reward) (u : User) :
    (sendDueRewardsUser d c u).inviteLink = u.inviteLink := rfl

@[simp] theorem invitesCount_sendDueRewardsUser (d : String → Bool) (c : List Reward) (u : User) :
    (sendDueRewardsUser d c u).invitesCount = u.invitesCount := rfl

@[simp] theorem invitedUsers_sendDueRewardsUser (d : String → Bool) (c : List Reward) (u : User) :
    (sendDueRewardsUser d c u).invitedUsers = u.invitedUsers := rfl

/-- The claimed list after the delivery loop: the old list, then the ids
whose delivery succeeded, in catalog (ascending-threshold) order. -/
theorem rewardsClaimed_sendDueRewardsUser (d : String → Bool) (c : List Reward) (u : User) :
    (sendDueRewardsUser d c u).rewardsClaimed =
      u.rewardsClaimed ++
        ((dueRewards c u).filter (fun r => d r.rewardId)).map (fun r => r.rewardId) := by
  unfold sendDueRewardsUser
  exact foldl_deliver_eq _ _

/-- `creditedInviter` only rewrites `invitedUsers`/`invitesCount`. -/
@[simp] theorem userId_creditedInviter (a : User) (j : Int) :
    (creditedInviter a j).userId = a.userId := by
  unfold creditedInviter
  split <;> rfl

@[simp] theorem inviteLink_creditedInviter (a : User) (j : Int) :
    (creditedInviter a j).inviteLink = a.inviteLink := by
  unfold creditedInviter
  split <;> rfl

@[simp] theorem rewardsClaimed_creditedInviter (a : User) (j : Int) :
    (creditedInviter a j).rewardsClaimed = a.rewardsClaimed := by
  unfold creditedInviter
  split <;> rfl

theorem invitedUsers_creditedInviter (a : User) (j : Int) :
    (creditedInviter a j).invitedUsers =
      if j ∈ a.invitedUsers then a.invitedUsers else a.invitedUsers ++ [j] := by
  unfold creditedInviter
  by_cases h : j ∈ a.invitedUsers <;> simp [List.elem_iff, h]

@[simp] theorem invitesCount_creditedInviter (a : User) (j : Int) :
    (creditedInviter a j).invitesCount = (creditedInviter a j).invitedUsers.length := by
  unfold creditedInviter
  split <;> rfl

/-- Early return: event from a chat the guard rejects. -/
theorem pcm_channel_fail (cfg : Config) (n : Bool) (d : String → Bool) (s : State)
    (e : ChatMemberEvent) (h : channelGuardPasses cfg.channel e = false) :
    processChatMember cfg n d s e = s := by
  simp [processChatMember, h]

/-- Early return: not a fresh became-member transition. -/
theorem pcm_not_member (cfg : Config) (n : Bool) (d : String → Bool) (s : State)
    (e : ChatMemberEvent) (h : becomesMember e = false) :
    processChatMember cfg n d s e = s := by
  cases hc : channelGuardPasses cfg.channel e <;> simp [processChatMember, hc, h]

/-- Early return: no invite link on the event. -/
theorem pcm_no_link (cfg : Config) (n : Bool) (d : String → Bool) (s : State)
    (e : ChatMemberEvent) (h : e.inviteLink = none) :
    processChatMember cfg n d s e = s := by
  cases hc : channelGuardPasses cfg.channel e <;>
    cases hm : becomesMember e <;>
      simp [processChatMember, hc, hm, h]

/-- Early return: the link belongs to no stored profile. -/
theorem pcm_no_inviter (cfg : Config) (n : Bool) (d : String → Bool) (s : State)
    (e : ChatMemberEvent) (link : String) (hl : e.inviteLink = some link)
    (h : findUserByLink s link = none) :
    processChatMember cfg n d s e = s := by
  cases hc : channelGuardPasses cfg.channel e <;>
    cases hm : becomesMember e <;>
      simp [processChatMember, hc, hm, hl, h]

/-- Early return: self-invite. -/
theorem pcm_self (cfg : Config) (n : Bool) (d : String → Bool) (s : State)
    (e : ChatMemberEvent) (link : String) (inviter : User)
    (hl : e.inviteLink = some link) (hf : findUserByLink s link = some inviter)
    (h : inviter.userId = e.joinedUserId) :
    processChatMember cfg n d s e = s := by
  cases hc : channelGuardPasses cfg.channel e <;>
    cases hm : becomesMember e <;>
      simp [processChatMember, hc, hm, hl, hf, h]

/-- Early return at the deduplication boundary: `Referral.create` throws
on the unique index and the handler aborts with the state untouched. -/
theorem pcm_duplicate (cfg : Config) (n : Bool) (d : String → Bool) (s : State)
    (e : ChatMemberEvent) (link : String) (inviter : User)
    (hl : e.inviteLink = some link) (hf : findUserByLink s link = some inviter)
    (hne : inviter.userId ≠ e.joinedUserId)
    (h : hasReferral s e.joinedUserId = true) :
    processChatMember cfg n d s e = s := by
  cases hc : channelGuardPasses cfg.channel e <;>
    cases hm : becomesMember e <;>
      simp [processChatMember, hc, hm, hl, hf, hne, h]

/-- The commit path, spelled out: all guards pass and no referral exists
for the joined identity. -/
theorem pcm_commit (cfg : Config) (n : Bool) (d : String → Bool) (s : State)
    (e : ChatMemberEvent) (link : String) (inviter : User)
    (hc : channelGuardPasses cfg.channel e = true)
    (hm : becomesMember e = true)
    (hl : e.inviteLink = some link)
    (hf : findUserByLink s link = some inviter)
    (hne : inviter.userId ≠ e.joinedUserId)
    (href : hasReferral s e.joinedUserId = false) :
    processChatMember cfg n d s e = commitState n d s e.joinedUserId inviter := by
  simp [processChatMember, hc, hm, hl, hf, hne, href]

/-! ## Dispatch lemmas -/

/-- Membership in the due list: exactly the catalog tiers at or below the
credit count that are not yet claimed. -/
theorem mem_dueRewards (c : List Reward) (u : User) (r : Reward) :
    r ∈ dueRewards c u ↔
      r ∈ c ∧ r.threshold ≤ (u.invitesCount : Int) ∧ r.rewardId ∉ u.rewardsClaimed := by
  unfold dueRewards sortByThreshold
  rw [List.mem_filter, (List.perm_insertionSort _ c).mem_iff]
  simp [and_assoc]

/-- The due list is in ascending threshold order. -/
theorem dueRewards_sorted (c : List Reward) (u : User) :
    List.Pairwise (fun a b : Reward => a.threshold ≤ b.threshold) (dueRewards c u) := by
  unfold dueRewards sortByThreshold
  apply List.Pairwise.filter
  haveI : IsTotal Reward (fun a b => a.threshold ≤ b.threshold) :=
    ⟨fun a b => le_total a.threshold b.threshold⟩
  haveI : IsTrans Reward (fun a b => a.threshold ≤ b.threshold) :=
    ⟨fun _ _ _ hab hbc => le_trans hab hbc⟩
  exact List.sorted_insertionSort _ c

/-! ## Claim theorems -/

/-- **C2.** `sendDueRewards` computes the due set as exactly the catalog
tiers whose threshold is at most the inviter's credit count and whose id is
not already claimed, attempts them in ascending threshold order regardless
of registration order, and on the spec's scenario — credit 12, nothing
claimed, catalog `id 1 @ 5`, `id 2 @ 10` registered in reverse — both tiers
are delivered and the final claimed list is `["1", "2"]`. -/
theorem dispatch_computes_due_set :
    (∀ (c : List Reward) (u : User) (r : Reward),
        r ∈ dueRewards c u ↔
          r ∈ c ∧ r.threshold ≤ (u.invitesCount : Int) ∧ r.rewardId ∉ u.rewardsClaimed) ∧
    (∀ (c : List Reward) (u : User),
        List.Pairwise (fun a b : Reward => a.threshold ≤ b.threshold) (dueRewards c u)) ∧
    (dueRewards exampleCatalog exampleInviter).map (fun r => r.rewardId) = ["1", "2"] ∧
    (sendDueRewardsUser (fun _ => true) exampleCatalog exampleInviter).rewardsClaimed
      = ["1", "2"] :=
  ⟨mem_dueRewards, dueRewards_sorted, by decide, by decide⟩

/-- **C3.** A failed delivery is skipped without aborting the loop: the
final claimed list is the old one plus exactly the ids whose delivery
succeeded (merged once, after all attempts); a tier that failed stays
unclaimed, and a later call with unchanged credit picks it up again.  In
the spec's scenario, tier 1 succeeding while tier 2 fails yields claimed
`["1"]`, and the follow-up call in which tier 2 succeeds yields
`["1", "2"]`. -/
theorem dispatch_isolates_failures :
    (∀ (d : String → Bool) (c : List Reward) (u : User),
        (sendDueRewardsUser d c u).rewardsClaimed =
          u.rewardsClaimed ++
            ((dueRewards c u).filter (fun r => d r.rewardId)).map (fun r => r.rewardId)) ∧
    (sendDueRewardsUser (fun r => r == "1") exampleCatalog exampleInviter).rewardsClaimed
      = ["1"] ∧
    (sendDueRewardsUser (fun _ => true) exampleCatalog
        (sendDueRewardsUser (fun r => r == "1") exampleCatalog exampleInviter)).rewardsClaimed
      = ["1", "2"] :=
  ⟨rewardsClaimed_sendDueRewardsUser, by decide, by decide⟩

/-- **C10.** The progress computation is a pure function of credit count
and step: `next` is the smallest multiple of `step` strictly greater than
the credit count (equivalently `credits + remaining`) and `remaining` is
`step - credits % step`; in particular 7,5 ↦ 10,3 and 10,5 ↦ 15,5. -/
theorem progress_formula (invites step : Nat) (h : 0 < step) :
    step ∣ progressNext invites step ∧
    invites < progressNext invites step ∧
    (∀ m, step ∣ m → invites < m → progressNext invites step ≤ m) ∧
    progressLeft invites step = step - invites % step ∧
    progressNext invites step = invites + progressLeft invites step ∧
    progressNext 7 5 = 10 ∧ progressLeft 7 5 = 3 ∧
    progressNext 10 5 = 15 ∧ progressLeft 10 5 = 5 := by
  have hkey : progressNext invites step = (invites / step + 1) * step := by
    unfold progressNext
    have h1 : (invites + 1) + step - 1 = invites + step := by omega
    rw [h1, Nat.add_div_right _ h]
  have hd := Nat.div_add_mod invites step
  have ha : invites % step < step := Nat.mod_lt _ h
  refine ⟨?_, ?_, ?_, rfl, ?_, by decide, by decide, by decide, by decide⟩
  · rw [hkey]
    exact dvd_mul_left step _
  · rw [hkey]
    calc invites = step * (invites / step) + invites % step := hd.symm
      _ < step * (invites / step) + step := Nat.add_lt_add_left ha _
      _ = (invites / step + 1) * step := by ring
  · intro m hm hlt
    obtain ⟨k, hk⟩ := hm
    rw [hkey]
    have h1 : step * (invites / step) ≤ invites := Nat.le.intro hd
    have h2 : step * (invites / step) < step * k := by
      apply lt_of_le_of_lt h1
      rw [hk] at hlt
      exact hlt
    have h3 : invites / step < k := Nat.lt_of_mul_lt_mul_left h2
    calc (invites / step + 1) * step ≤ k * step := Nat.mul_le_mul_right step h3
      _ = m := by rw [hk]; ring
  · rw [hkey]
    unfold progressLeft
    calc (invites / step + 1) * step
        = step * (invites / step) + step := by ring
      _ = step * (invites / step) + (invites % step + (step - invites % step)) := by
            rw [Nat.add_sub_cancel' (Nat.le_of_lt ha)]
      _ = (step * (invites / step) + invites % step) + (step - invites % step) := by
            rw [Nat.add_assoc]
      _ = invites + (step - invites % step) := by rw [hd]

/-- Witness for `progress_formula` at credits 7, step 5. -/
theorem progress_formula_witness :
    5 ∣ progressNext 7 5 ∧ 7 < progressNext 7 5 :=
  ⟨(progress_formula 7 5 (by decide)).1, (progress_formula 7 5 (by decide)).2.1⟩

/-- A non-admin (or absent) sender fails the `isAdmin` check. -/
theorem isAdmin_eq_false (cfg : Config) (fromId : Option Int)
    (h : fromId ≠ some cfg.admin) : isAdmin cfg fromId = false := by
  cases fromId with
  | none => rfl
  | some i =>
      simp only [isAdmin, beq_eq_false_iff_ne]
      exact fun he => h (congrArg some he)

/-- **C8.** Every admin-only action — stats, user lookup, broadcast,
rewards list, reward registration, reward payload upload — invoked by an
identity other than the configured admin returns the state unchanged
(persistent collections and upload sessions alike) and sends no message of
any kind. -/
theorem admin_actions_silent_for_non_admin (cfg : Config) (fromId : Option Int)
    (s : State) (arg msg : String) (sendOk : Int → Bool)
    (parts : List String) (doc : TgDocument)
    (h : fromId ≠ some cfg.admin) :
    statsHandler cfg fromId s = (s, []) ∧
    userLookupHandler cfg fromId arg s = (s, []) ∧
    broadcastHandler cfg fromId msg sendOk s = (s, []) ∧
    rewardslistHandler cfg fromId s = (s, []) ∧
    rewardCommandHandler cfg fromId parts s = (s, []) ∧
    documentHandler cfg fromId doc s = (s, []) := by
  have hadm := isAdmin_eq_false cfg fromId h
  exact ⟨by simp [statsHandler, hadm], by simp [userLookupHandler, hadm],
         by simp [broadcastHandler, hadm], by simp [rewardslistHandler, hadm],
         by simp [rewardCommandHandler, hadm], by simp [documentHandler, hadm]⟩

/-- Witness for `admin_actions_silent_for_non_admin`: identity 5 is not
the configured admin 1, and its `/stats` attempt is a silent no-op. -/
theorem admin_actions_silent_witness :
    statsHandler handleConfig (some 5) oneInviterState = (oneInviterState, []) :=
  (admin_actions_silent_for_non_admin handleConfig (some 5) oneInviterState
    "" "" (fun _ => true) [] ⟨none, none, ""⟩ (by decide)).1

/-- **C7.** The failing input: the bot is configured with the public
handle `@wallswipe`, and a join event arrives from a chat with numeric id
999 and **no** public username — a channel other than the configured one.
The handler's channel guard passes it (the outer mixed-type comparison
degenerates to `chatId !== chatId`), and processing goes on to commit a
`ReferralRecord` for joiner 42 and to credit profile 7 — contradicting the
claim that such an event is discarded with no record and no profile
mutation. -/
theorem channel_mismatch_event_commits :
    channelGuardPasses handleConfig.channel foreignChatJoin = true ∧
    (processChatMember handleConfig true (fun _ => true) oneInviterState foreignChatJoin).referrals
      = [⟨42, 7⟩] ∧
    invitesCountOf
      (processChatMember handleConfig true (fun _ => true) oneInviterState foreignChatJoin) 7
      = 1 :=
  ⟨by decide, by decide, by decide⟩

/-! ## Reward-registration lemmas -/

@[simp] theorem rewards_pendingSet (s : State) (p : PendingUpload) :
    (pendingSet s p).rewards = s.rewards := by
  unfold pendingSet
  split <;> rfl

@[simp] theorem users_pendingSet (s : State) (p : PendingUpload) :
    (pendingSet s p).users = s.users := by
  unfold pendingSet
  split <;> rfl

@[simp] theorem referrals_pendingSet (s : State) (p : PendingUpload) :
    (pendingSet s p).referrals = s.referrals := by
  unfold pendingSet
  split <;> rfl

@[simp] theorem users_upsertReward (s : State) (r : Reward) :
    (upsertReward s r).users = s.users := by
  unfold upsertReward
  split <;> rfl

@[simp] theorem referrals_upsertReward (s : State) (r : Reward) :
    (upsertReward s r).referrals = s.referrals := by
  unfold upsertReward
  split <;> rfl

@[simp] theorem users_pendingDelete (s : State) (uid : Int) :
    (pendingDelete s uid).users = s.users := rfl

@[simp] theorem rewards_pendingDelete (s : State) (uid : Int) :
    (pendingDelete s uid).rewards = s.rewards := rfl

@[simp] theorem referrals_pendingDelete (s : State) (uid : Int) :
    (pendingDelete s uid).referrals = s.referrals := rfl

/-- Reading the session just opened for an admin returns it. -/
theorem pendingGet_pendingSet (s : State) (p : PendingUpload) :
    pendingGet (pendingSet s p) p.adminId = some p := by
  unfold pendingGet pendingSet
  by_cases h : s.pending.any (fun q => q.adminId == p.adminId)
  · rw [if_pos h]
    obtain ⟨x, hx, hpx⟩ := List.any_eq_true.mp h
    have hsome : (s.pending.find? (fun q => q.adminId == p.adminId)).isSome :=
      List.find?_isSome.mpr ⟨x, hx, hpx⟩
    obtain ⟨a, ha⟩ := Option.isSome_iff_exists.mp hsome
    have hpa : (a.adminId == p.adminId) = true :=
      @List.find?_some _ (fun q => q.adminId == p.adminId) a s.pending ha
    exact find?_map_replace (by simp) ha hpa
  · rw [if_neg h]
    show (s.pending ++ [p]).find? (fun q => q.adminId == p.adminId) = some p
    rw [List.find?_append]
    have hnone : s.pending.find? (fun q => q.adminId == p.adminId) = none := by
      rw [List.find?_eq_none]
      intro x hx hpx
      exact h (List.any_eq_true.mpr ⟨x, hx, hpx⟩)
    rw [hnone]
    simp

/-- The upserted reward document is stored. -/
theorem mem_upsertReward (s : State) (r : Reward) : r ∈ (upsertReward s r).rewards := by
  unfold upsertReward
  by_cases h : s.rewards.any (fun x => x.rewardId == r.rewardId)
  · rw [if_pos h]
    obtain ⟨x, hx, hpx⟩ := List.any_eq_true.mp h
    have := List.mem_map_of_mem (fun y => if y.rewardId == r.rewardId then r else y) hx
    simp only [hpx, if_true] at this
    exact this
  · rw [if_neg h]
    simp

/-- Registering `/reward rid …` and then uploading an archive stores the
reward with the session's threshold and the uploaded `file_id`. -/
theorem upload_after_command (cfg : Config) (s : State) (cmd rid : String)
    (rest : List String) (doc : TgDocument) (hz : isZipDocument doc = true) :
    (⟨rid, doc.fileId, rewardCmdThreshold cfg rid rest.head?⟩ : Reward) ∈
      ((documentHandler cfg (some cfg.admin) doc
          ((rewardCommandHandler cfg (some cfg.admin) (cmd :: rid :: rest) s).1)).1).rewards := by
  have hadm : isAdmin cfg (some cfg.admin) = true := by simp [isAdmin]
  have hcmd : (rewardCommandHandler cfg (some cfg.admin) (cmd :: rid :: rest) s).1
      = pendingSet s ⟨cfg.admin, rid, rewardCmdThreshold cfg rid rest.head?⟩ := by
    simp [rewardCommandHandler, hadm]
  rw [hcmd]
  have hget := pendingGet_pendingSet s ⟨cfg.admin, rid, rewardCmdThreshold cfg rid rest.head?⟩
  simp only [documentHandler, hadm, Bool.not_true, Bool.false_eq_true, if_false, hget, hz,
    Bool.not_false, rewards_pendingDelete]
  exact mem_upsertReward _ _

/-- **C9 counterexample.** The admin announces `/reward 1 0` (explicit
threshold 0) and uploads a ZIP: the tier is stored with threshold 0, which
is not an integer ≥ 1 — the bound is not enforced anywhere in the
registration flow. -/
theorem reward_zero_threshold_stored :
    ((documentHandler handleConfig (some 1) ⟨some "application/zip", some "r.zip", "F"⟩
        ((rewardCommandHandler handleConfig (some 1) ["/reward", "1", "0"] oneInviterState).1)).1).rewards
      = [⟨"1", "F", 0⟩] ∧ ¬ (1 ≤ (0 : Int)) :=
  ⟨by decide, by decide⟩

/-- **C9 amended.** The registration flow stores whatever threshold the
admin supplied, verbatim and unvalidated — any integer, including 0 and
negatives; only when the threshold argument is missing or non-numeric is it
defaulted, to `tierId × step` when the tier id parses as a number and to
`step` itself otherwise. -/
theorem reward_threshold_stored_verbatim (cfg : Config) (s : State)
    (cmd rid t : String) (v : Int) (doc : TgDocument)
    (hz : isZipDocument doc = true) (hv : jsNumber t = some v) :
    ((⟨rid, doc.fileId, v⟩ : Reward) ∈
      ((documentHandler cfg (some cfg.admin) doc
          ((rewardCommandHandler cfg (some cfg.admin) [cmd, rid, t] s).1)).1).rewards) ∧
    (jsNumber rid = none →
      (⟨rid, doc.fileId, cfg.step⟩ : Reward) ∈
        ((documentHandler cfg (some cfg.admin) doc
            ((rewardCommandHandler cfg (some cfg.admin) [cmd, rid] s).1)).1).rewards) ∧
    (∀ k : Int, jsNumber rid = some k →
      (⟨rid, doc.fileId, k * cfg.step⟩ : Reward) ∈
        ((documentHandler cfg (some cfg.admin) doc
            ((rewardCommandHandler cfg (some cfg.admin) [cmd, rid] s).1)).1).rewards) := by
  refine ⟨?_, ?_, ?_⟩
  · have hthis := upload_after_command cfg s cmd rid [t] doc hz
    rwa [show rewardCmdThreshold cfg rid ([t].head?) = v by
      simp [rewardCmdThreshold, hv]] at hthis
  · intro hr
    have hthis := upload_after_command cfg s cmd rid [] doc hz
    rwa [show rewardCmdThreshold cfg rid ([] : List String).head? = cfg.step by
      simp [rewardCmdThreshold, hr]] at hthis
  · intro k hk
    have hthis := upload_after_command cfg s cmd rid [] doc hz
    rwa [show rewardCmdThreshold cfg rid ([] : List String).head? = k * cfg.step by
      simp [rewardCmdThreshold, hk]] at hthis

/-- Witness for `reward_threshold_stored_verbatim`: an explicit threshold
of -3 is stored verbatim. -/
theorem reward_threshold_stored_verbatim_witness :
    (⟨"9", "F", -3⟩ : Reward) ∈
      ((documentHandler handleConfig (some handleConfig.admin)
          ⟨some "application/zip", none, "F"⟩
          ((rewardCommandHandler handleConfig (some handleConfig.admin)
              ["/reward", "9", "-3"] oneInviterState).1)).1).rewards :=
  (reward_threshold_stored_verbatim handleConfig oneInviterState "/reward" "9" "-3" (-3)
    ⟨some "application/zip", none, "F"⟩ (by decide) (by decide)).1

/-! ## Count-invariant lemmas -/

theorem countInvariant_of_users_eq (s s' : State) (he : s'.users = s.users)
    (h : CountInvariant s) : CountInvariant s' :=
  fun u hu => h u (he ▸ hu)

/-- `ensureUser` preserves the invariant and returns a document satisfying
it. -/
theorem ensureUser_countInv (s : State) (fromId : Int) (uname : Option String)
    (h : CountInvariant s) :
    CountInvariant (ensureUser s fromId uname).1 ∧
      (ensureUser s fromId uname).2.invitesCount
        = (ensureUser s fromId uname).2.invitedUsers.length := by
  unfold ensureUser
  cases hf : findUserById s fromId with
  | some u =>
      have hu : u ∈ s.users := List.mem_of_find?_eq_some hf
      by_cases hn : u.username = uname
      · simp only [if_pos hn]
        exact ⟨h, h u hu⟩
      · simp only [if_neg hn]
        exact ⟨countInvariant_saveUser _ _ h (h u hu), h u hu⟩
  | none =>
      refine ⟨?_, rfl⟩
      intro v hv
      rcases List.mem_append.mp hv with hv | hv
      · exact h v hv
      · have : v = (⟨fromId, uname, none, [], 0, []⟩ : User) := by simpa using hv
        subst this
        rfl

theorem getOrCreateInviteLink_countInv (s : State) (u : User) (lr : Option String)
    (h : CountInvariant s) (hu : u.invitesCount = u.invitedUsers.length) :
    CountInvariant (getOrCreateInviteLink s u lr) := by
  unfold getOrCreateInviteLink
  cases u.inviteLink with
  | some l => exact h
  | none =>
      cases lr with
      | some link => exact countInvariant_saveUser _ _ h hu
      | none => exact h

theorem startHandler_countInv (s : State) (fromId : Int) (uname : Option String)
    (lr : Option String) (h : CountInvariant s) :
    CountInvariant (startHandler s fromId uname lr) := by
  unfold startHandler
  obtain ⟨h1, h2⟩ := ensureUser_countInv s fromId uname h
  exact getOrCreateInviteLink_countInv _ _ _ h1 h2

theorem sendDueRewards_countInv (d : String → Bool) (s : State) (u : User)
    (h : CountInvariant s) (hu : u.invitesCount = u.invitedUsers.length) :
    CountInvariant (sendDueRewards d s u) := by
  unfold sendDueRewards
  by_cases he : (dueRewards s.rewards u).isEmpty = true
  · simp only [he, if_true]
    exact h
  · simp only [he, if_false]
    refine countInvariant_saveUser _ _ h ?_
    simp only [invitesCount_sendDueRewardsUser, invitedUsers_sendDueRewardsUser]
    exact hu

theorem processChatMember_countInv (cfg : Config) (n : Bool) (d : String → Bool)
    (s : State) (e : ChatMemberEvent) (h : CountInvariant s) :
    CountInvariant (processChatMember cfg n d s e) := by
  cases hc : channelGuardPasses cfg.channel e with
  | false => rw [pcm_channel_fail cfg n d s e hc]; exact h
  | true =>
  cases hm : becomesMember e with
  | false => rw [pcm_not_member cfg n d s e hm]; exact h
  | true =>
  cases hl : e.inviteLink with
  | none => rw [pcm_no_link cfg n d s e hl]; exact h
  | some link =>
  cases hf : findUserByLink s link with
  | none => rw [pcm_no_inviter cfg n d s e link hl hf]; exact h
  | some inviter =>
  by_cases hself : inviter.userId = e.joinedUserId
  · rw [pcm_self cfg n d s e link inviter hl hf hself]; exact h
  cases href : hasReferral s e.joinedUserId with
  | true => rw [pcm_duplicate cfg n d s e link inviter hl hf hself href]; exact h
  | false =>
    rw [pcm_commit cfg n d s e link inviter hc hm hl hf hself href]
    have h1 : CountInvariant
        ({ s with referrals := s.referrals ++ [⟨e.joinedUserId, inviter.userId⟩] } : State) :=
      fun u hu => h u hu
    have h2 : CountInvariant
        (saveUser { s with referrals := s.referrals ++ [⟨e.joinedUserId, inviter.userId⟩] }
          (creditedInviter inviter e.joinedUserId)) :=
      countInvariant_saveUser _ _ h1 (invitesCount_creditedInviter _ _)
    cases n with
    | false => exact h2
    | true => exact sendDueRewards_countInv d _ _ h2 (invitesCount_creditedInviter _ _)

theorem statsHandler_fst (cfg : Config) (f : Option Int) (s : State) :
    (statsHandler cfg f s).1 = s := by
  unfold statsHandler
  split <;> rfl

theorem userLookupHandler_fst (cfg : Config) (f : Option Int) (arg : String) (s : State) :
    (userLookupHandler cfg f arg s).1 = s := by
  simp only [userLookupHandler]
  repeat' split <;> try rfl

theorem broadcastHandler_fst (cfg : Config) (f : Option Int) (msg : String)
    (sendOk : Int → Bool) (s : State) : (broadcastHandler cfg f msg sendOk s).1 = s := by
  simp only [broadcastHandler]
  repeat' split <;> try rfl

theorem rewardslistHandler_fst (cfg : Config) (f : Option Int) (s : State) :
    (rewardslistHandler cfg f s).1 = s := by
  simp only [rewardslistHandler]
  repeat' split <;> try rfl

theorem rewardCommandHandler_users (cfg : Config) (f : Option Int) (parts : List String)
    (s : State) : ((rewardCommandHandler cfg f parts s).1).users = s.users := by
  simp only [rewardCommandHandler]
  repeat' split
  all_goals first | rfl | simp

theorem documentHandler_users (cfg : Config) (f : Option Int) (doc : TgDocument)
    (s : State) : ((documentHandler cfg f doc s).1).users = s.users := by
  simp only [documentHandler]
  repeat' split
  all_goals first | rfl | simp

/-- **C5.** The invariant `invitesCount = invitedUsers.length` holds for
every stored profile after every operation — profile creation, username
refresh, link issuance, attribution (which recomputes the count from the
set's length), dispatch, and all admin flows — whenever it held before. -/
theorem count_invariant_preserved (cfg : Config) (s : State) (op : Op)
    (h : CountInvariant s) : CountInvariant (step cfg s op) := by
  cases op with
  | start fromId uname lr => exact startHandler_countInv s fromId uname lr h
  | linkCmd fromId uname lr => exact startHandler_countInv s fromId uname lr h
  | myinvites fromId uname => exact (ensureUser_countInv s fromId uname h).1
  | rewardsCmd fromId uname => exact (ensureUser_countInv s fromId uname h).1
  | top => exact h
  | stats f =>
      exact countInvariant_of_users_eq _ _
        (by show ((statsHandler cfg f s).1).users = s.users; rw [statsHandler_fst]) h
  | userLookup f arg =>
      exact countInvariant_of_users_eq _ _
        (by show ((userLookupHandler cfg f arg s).1).users = s.users
            rw [userLookupHandler_fst]) h
  | broadcast f msg sendOk =>
      exact countInvariant_of_users_eq _ _
        (by show ((broadcastHandler cfg f msg sendOk s).1).users = s.users
            rw [broadcastHandler_fst]) h
  | rewardslist f =>
      exact countInvariant_of_users_eq _ _
        (by show ((rewardslistHandler cfg f s).1).users = s.users
            rw [rewardslistHandler_fst]) h
  | rewardCmd f parts =>
      exact countInvariant_of_users_eq _ _ (rewardCommandHandler_users cfg f parts s) h
  | document f doc =>
      exact countInvariant_of_users_eq _ _ (documentHandler_users cfg f doc s) h
  | chatMember n d e => exact processChatMember_countInv cfg n d s e h

/-- Witness for `count_invariant_preserved`: the single stored profile of
`oneInviterState` satisfies the invariant, and it still holds after a join
event is processed. -/
theorem count_invariant_preserved_witness :
    CountInvariant
      (step handleConfig oneInviterState (Op.chatMember true (fun _ => true) matchingJoin)) :=
  count_invariant_preserved handleConfig oneInviterState
    (Op.chatMember true (fun _ => true) matchingJoin)
    (by intro u hu
        have : u = (⟨7, some "inv", some "L", [], 0, []⟩ : User) := by
          simpa [oneInviterState] using hu
        subst this
        rfl)

/-! ## Claimed-set monotonicity lemmas -/

theorem claimedOf_of_users_eq (s s' : State) (he : s'.users = s.users) (uid : Int) :
    claimedOf s' uid = claimedOf s uid := by
  unfold claimedOf findUserById
  rw [he]

theorem claimedOf_users_append (s : State) (l : List User) (uid : Int) :
    claimedOf s uid ⊆ claimedOf { s with users := s.users ++ l } uid := by
  unfold claimedOf findUserById
  cases hf : s.users.find? (fun u => u.userId == uid) with
  | none => simp
  | some u0 =>
      show _ ⊆ ((((s.users ++ l).find? (fun u => u.userId == uid)).map
        (fun u => u.rewardsClaimed)).getD [])
      rw [List.find?_append, hf]
      simp

/-- A stored member is replaced by `x` itself when `x` carries its id. -/
theorem mem_saveUser_self (s : State) (a x : User) (ha : a ∈ s.users)
    (hid : x.userId = a.userId) : x ∈ (saveUser s x).users := by
  have hmem := List.mem_map_of_mem (fun v => if v.userId == x.userId then x else v) ha
  have hx : (fun v => if v.userId == x.userId then x else v) a = x := by simp [hid]
  rwa [hx] at hmem

/-- `ensureUser` keeps ids distinct and returns a stored document. -/
theorem ensureUser_spec (s : State) (fromId : Int) (uname : Option String)
    (hn : UsersNodup s) :
    UsersNodup (ensureUser s fromId uname).1 ∧
      (ensureUser s fromId uname).2 ∈ (ensureUser s fromId uname).1.users := by
  unfold ensureUser
  cases hf : findUserById s fromId with
  | some u =>
      have hu : u ∈ s.users := List.mem_of_find?_eq_some hf
      by_cases husr : u.username = uname
      · simp only [if_pos husr]
        exact ⟨hn, hu⟩
      · simp only [if_neg husr]
        exact ⟨usersNodup_saveUser _ _ hn, mem_saveUser_self s u _ hu rfl⟩
  | none =>
      refine ⟨?_, by simp⟩
      unfold UsersNodup at hn ⊢
      simp only [List.map_append]
      refine List.Nodup.append hn (by simp) ?_
      intro a ha hb
      simp only [List.map_cons, List.map_nil, List.mem_singleton] at hb
      subst hb
      obtain ⟨v, hv, hva⟩ := List.mem_map.mp ha
      have := List.find?_eq_none.mp hf v hv
      simp only [beq_eq_false_iff_ne] at this
      exact absurd hva (by simpa using this)

theorem ensureUser_claim_mono (s : State) (fromId : Int) (uname : Option String)
    (uid : Int) (hn : UsersNodup s) :
    claimedOf s uid ⊆ claimedOf (ensureUser s fromId uname).1 uid := by
  unfold ensureUser
  cases hf : findUserById s fromId with
  | some u =>
      have hu : u ∈ s.users := List.mem_of_find?_eq_some hf
      by_cases husr : u.username = uname
      · simp only [if_pos husr]
        exact fun a ha => ha
      · simp only [if_neg husr]
        exact claimedOf_mono_saveUser s u _ uid hu rfl (fun a ha => ha) hn
  | none => exact claimedOf_users_append s _ uid

theorem getOrCreateInviteLink_claim_mono (s : State) (u : User) (lr : Option String)
    (uid : Int) (hu : u ∈ s.users) (hn : UsersNodup s) :
    claimedOf s uid ⊆ claimedOf (getOrCreateInviteLink s u lr) uid := by
  unfold getOrCreateInviteLink
  cases u.inviteLink with
  | some l => exact fun a ha => ha
  | none =>
      cases lr with
      | some link =>
          exact claimedOf_mono_saveUser s u _ uid hu rfl (fun a ha => ha) hn
      | none => exact fun a ha => ha

theorem startHandler_claim_mono (s : State) (fromId : Int) (uname : Option String)
    (lr : Option String) (uid : Int) (hn : UsersNodup s) :
    claimedOf s uid ⊆ claimedOf (startHandler s fromId uname lr) uid := by
  unfold startHandler
  obtain ⟨hn1, hmem⟩ := ensureUser_spec s fromId uname hn
  exact List.Subset.trans (ensureUser_claim_mono s fromId uname uid hn)
    (getOrCreateInviteLink_claim_mono _ _ lr uid hmem hn1)

theorem sendDueRewards_claim_mono (d : String → Bool) (s : State) (u : User)
    (uid : Int) (hu : u ∈ s.users) (hn : UsersNodup s) :
    claimedOf s uid ⊆ claimedOf (sendDueRewards d s u) uid := by
  unfold sendDueRewards
  by_cases he : (dueRewards s.rewards u).isEmpty = true
  · simp only [he, if_true]
    exact fun a ha => ha
  · simp only [he, if_false]
    refine claimedOf_mono_saveUser s u _ uid hu rfl ?_ hn
    rw [rewardsClaimed_sendDueRewardsUser]
    exact List.subset_append_left _ _

theorem processChatMember_claim_mono (cfg : Config) (n : Bool) (d : String → Bool)
    (s : State) (e : ChatMemberEvent) (uid : Int) (hn : UsersNodup s) :
    claimedOf s uid ⊆ claimedOf (processChatMember cfg n d s e) uid := by
  cases hc : channelGuardPasses cfg.channel e with
  | false => rw [pcm_channel_fail cfg n d s e hc]; exact fun a ha => ha
  | true =>
  cases hm : becomesMember e with
  | false => rw [pcm_not_member cfg n d s e hm]; exact fun a ha => ha
  | true =>
  cases hl : e.inviteLink with
  | none => rw [pcm_no_link cfg n d s e hl]; exact fun a ha => ha
  | some link =>
  cases hf : findUserByLink s link with
  | none => rw [pcm_no_inviter cfg n d s e link hl hf]; exact fun a ha => ha
  | some inviter =>
  by_cases hself : inviter.userId = e.joinedUserId
  · rw [pcm_self cfg n d s e link inviter hl hf hself]; exact fun a ha => ha
  cases href : hasReferral s e.joinedUserId with
  | true =>
      rw [pcm_duplicate cfg n d s e link inviter hl hf hself href]
      exact fun a ha => ha
  | false =>
    rw [pcm_commit cfg n d s e link inviter hc hm hl hf hself href]
    have hmem : inviter ∈ s.users := List.mem_of_find?_eq_some hf
    have hstep1 :
        claimedOf ({ s with referrals := s.referrals ++ [⟨e.joinedUserId, inviter.userId⟩] } : State) uid ⊆
          claimedOf (saveUser
            { s with referrals := s.referrals ++ [⟨e.joinedUserId, inviter.userId⟩] }
            (creditedInviter inviter e.joinedUserId)) uid :=
      claimedOf_mono_saveUser _ inviter _ uid hmem (userId_creditedInviter _ _)
        (by rw [rewardsClaimed_creditedInviter]; exact fun a ha => ha) hn
    cases n with
    | false => exact hstep1
    | true =>
        refine List.Subset.trans hstep1 ?_
        refine sendDueRewards_claim_mono d _ _ uid ?_ (usersNodup_saveUser _ _ hn)
        exact mem_saveUser_self _ inviter _ hmem (userId_creditedInviter _ _)

/-- **C6.** A profile's claimed-tier set never loses a member: after any
single operation of the system — user commands, admin commands, payload
upload, or join processing with any delivery outcomes — every profile's
stored `rewardsClaimed` is a superset of what it was before. -/
theorem claimed_tier_set_monotone (cfg : Config) (s : State) (op : Op) (uid : Int)
    (hn : UsersNodup s) :
    claimedOf s uid ⊆ claimedOf (step cfg s op) uid := by
  cases op with
  | start fromId uname lr => exact startHandler_claim_mono s fromId uname lr uid hn
  | linkCmd fromId uname lr => exact startHandler_claim_mono s fromId uname lr uid hn
  | myinvites fromId uname => exact ensureUser_claim_mono s fromId uname uid hn
  | rewardsCmd fromId uname => exact ensureUser_claim_mono s fromId uname uid hn
  | top => exact fun a ha => ha
  | stats f =>
      show claimedOf s uid ⊆ claimedOf ((statsHandler cfg f s).1) uid
      rw [statsHandler_fst]
      exact fun a ha => ha
  | userLookup f arg =>
      show claimedOf s uid ⊆ claimedOf ((userLookupHandler cfg f arg s).1) uid
      rw [userLookupHandler_fst]
      exact fun a ha => ha
  | broadcast f msg sendOk =>
      show claimedOf s uid ⊆ claimedOf ((broadcastHandler cfg f msg sendOk s).1) uid
      rw [broadcastHandler_fst]
      exact fun a ha => ha
  | rewardslist f =>
      show claimedOf s uid ⊆ claimedOf ((rewardslistHandler cfg f s).1) uid
      rw [rewardslistHandler_fst]
      exact fun a ha => ha
  | rewardCmd f parts =>
      show claimedOf s uid ⊆ claimedOf ((rewardCommandHandler cfg f parts s).1) uid
      rw [claimedOf_of_users_eq s ((rewardCommandHandler cfg f parts s).1)
        (rewardCommandHandler_users cfg f parts s) uid]
      exact fun a ha => ha
  | document f doc =>
      show claimedOf s uid ⊆ claimedOf ((documentHandler cfg f doc s).1) uid
      rw [claimedOf_of_users_eq s ((documentHandler cfg f doc s).1)
        (documentHandler_users cfg f doc s) uid]
      exact fun a ha => ha
  | chatMember n d e => exact processChatMember_claim_mono cfg n d s e uid hn

/-- Witness for `claimed_tier_set_monotone` on the one-profile state and a
processed join event. -/
theorem claimed_tier_set_monotone_witness :
    claimedOf oneInviterState 7 ⊆
      claimedOf
        (step handleConfig oneInviterState (Op.chatMember true (fun _ => true) matchingJoin)) 7 :=
  claimed_tier_set_monotone handleConfig oneInviterState
    (Op.chatMember true (fun _ => true) matchingJoin) 7 (by unfold UsersNodup; decide)

/-! ## Commit-path observation lemmas -/

/-- Lookup by link after a save whose document carries the link and the
found id. -/
theorem findUserByLink_saveUser (s : State) (x : User) (link : String) (a : User)
    (hf : findUserByLink s link = some a) (hx : x.inviteLink = some link)
    (hid : a.userId = x.userId) :
    findUserByLink (saveUser s x) link = some x := by
  unfold findUserByLink saveUser
  exact find?_map_replace (by simp [hx]) hf (by simp [hid])

theorem findUserById_saveUser_self (s : State) (a x : User)
    (ha : findUserById s a.userId = some a) (hid : x.userId = a.userId) :
    findUserById (saveUser s x) a.userId = some x := by
  rw [findUserById_saveUser, ha]
  simp [hid]

theorem commitState_referrals (n : Bool) (d : String → Bool) (s : State) (j : Int)
    (a : User) : (commitState n d s j a).referrals = s.referrals ++ [⟨j, a.userId⟩] := by
  unfold commitState
  cases n <;> simp

theorem hasReferral_commitState (n : Bool) (d : String → Bool) (s : State) (j : Int)
    (a : User) : hasReferral (commitState n d s j a) j = true := by
  unfold hasReferral
  rw [commitState_referrals]
  simp [List.any_append]

theorem referralCount_eq_zero (s : State) (j : Int) (h : hasReferral s j = false) :
    referralCount s j = 0 := by
  unfold referralCount
  unfold hasReferral at h
  rw [List.filter_eq_nil_iff.mpr (List.any_eq_false.mp h)]
  rfl

/-- Dispatch leaves the dispatched user's `invitedUsers` as is. -/
theorem sendDueRewards_invitedUsersOf (d : String → Bool) (s : State) (u : User)
    (hfind : findUserById s u.userId = some u) :
    invitedUsersOf (sendDueRewards d s u) u.userId = u.invitedUsers := by
  unfold sendDueRewards
  by_cases he : (dueRewards s.rewards u).isEmpty = true
  · simp only [he, if_true]
    unfold invitedUsersOf
    rw [hfind]
    rfl
  · simp only [he, if_false]
    simp [invitedUsersOf_saveUser, hfind]

/-- Dispatch leaves the dispatched user's `invitesCount` as is. -/
theorem sendDueRewards_invitesCountOf (d : String → Bool) (s : State) (u : User)
    (hfind : findUserById s u.userId = some u) :
    invitesCountOf (sendDueRewards d s u) u.userId = u.invitesCount := by
  unfold sendDueRewards
  by_cases he : (dueRewards s.rewards u).isEmpty = true
  · simp only [he, if_true]
    unfold invitesCountOf
    rw [hfind]
    rfl
  · simp only [he, if_false]
    simp [invitesCountOf_saveUser, hfind]

/-- The dispatched user's stored claimed list afterwards is exactly the
delivery loop's result (also when nothing was due and no save happened). -/
theorem sendDueRewards_claimedOf (d : String → Bool) (s : State) (u : User)
    (hfind : findUserById s u.userId = some u) :
    claimedOf (sendDueRewards d s u) u.userId
      = (sendDueRewardsUser d s.rewards u).rewardsClaimed := by
  unfold sendDueRewards
  by_cases he : (dueRewards s.rewards u).isEmpty = true
  · have hnil : dueRewards s.rewards u = [] := List.isEmpty_iff.mp he
    simp only [he, if_true]
    unfold claimedOf
    rw [hfind]
    simp [rewardsClaimed_sendDueRewardsUser, hnil]
  · simp only [he, if_false]
    simp [claimedOf_saveUser, hfind]

theorem commitState_invitedUsersOf (n : Bool) (d : String → Bool) (s : State) (j : Int)
    (a : User) (hfind : findUserById s a.userId = some a) :
    invitedUsersOf (commitState n d s j a) a.userId = (creditedInviter a j).invitedUsers := by
  unfold commitState
  have hfind1 : findUserById ({ s with referrals := s.referrals ++ [⟨j, a.userId⟩] } : State)
      a.userId = some a := hfind
  have hfind2 := findUserById_saveUser_self _ a (creditedInviter a j) hfind1
    (userId_creditedInviter a j)
  cases n with
  | false =>
      show invitedUsersOf
          (saveUser { s with referrals := s.referrals ++ [⟨j, a.userId⟩] }
            (creditedInviter a j)) a.userId
        = (creditedInviter a j).invitedUsers
      simp [invitedUsersOf_saveUser, hfind1]
  | true =>
      show invitedUsersOf
          (sendDueRewards d
            (saveUser { s with referrals := s.referrals ++ [⟨j, a.userId⟩] }
              (creditedInviter a j))
            (creditedInviter a j)) a.userId
        = (creditedInviter a j).invitedUsers
      have hres := sendDueRewards_invitedUsersOf d
        (saveUser { s with referrals := s.referrals ++ [⟨j, a.userId⟩] } (creditedInviter a j))
        (creditedInviter a j) (by rw [userId_creditedInviter]; exact hfind2)
      rw [userId_creditedInviter] at hres
      exact hres

theorem commitState_invitesCountOf (n : Bool) (d : String → Bool) (s : State) (j : Int)
    (a : User) (hfind : findUserById s a.userId = some a) :
    invitesCountOf (commitState n d s j a) a.userId
      = (creditedInviter a j).invitedUsers.length := by
  unfold commitState
  have hfind1 : findUserById ({ s with referrals := s.referrals ++ [⟨j, a.userId⟩] } : State)
      a.userId = some a := hfind
  have hfind2 := findUserById_saveUser_self _ a (creditedInviter a j) hfind1
    (userId_creditedInviter a j)
  cases n with
  | false =>
      show invitesCountOf
          (saveUser { s with referrals := s.referrals ++ [⟨j, a.userId⟩] }
            (creditedInviter a j)) a.userId
        = (creditedInviter a j).invitedUsers.length
      simp [invitesCountOf_saveUser, hfind1]
  | true =>
      show invitesCountOf
          (sendDueRewards d
            (saveUser { s with referrals := s.referrals ++ [⟨j, a.userId⟩] }
              (creditedInviter a j))
            (creditedInviter a j)) a.userId
        = (creditedInviter a j).invitedUsers.length
      have hres := sendDueRewards_invitesCountOf d
        (saveUser { s with referrals := s.referrals ++ [⟨j, a.userId⟩] } (creditedInviter a j))
        (creditedInviter a j) (by rw [userId_creditedInviter]; exact hfind2)
      rw [userId_creditedInviter] at hres
      rw [hres]
      exact invitesCount_creditedInviter a j

theorem commitState_claimedOf (n : Bool) (d : String → Bool) (s : State) (j : Int)
    (a : User) (hfind : findUserById s a.userId = some a) :
    claimedOf (commitState n d s j a) a.userId
      = (if n then (sendDueRewardsUser d s.rewards (creditedInviter a j)).rewardsClaimed
         else a.rewardsClaimed) := by
  unfold commitState
  have hfind1 : findUserById ({ s with referrals := s.referrals ++ [⟨j, a.userId⟩] } : State)
      a.userId = some a := hfind
  have hfind2 := findUserById_saveUser_self _ a (creditedInviter a j) hfind1
    (userId_creditedInviter a j)
  cases n with
  | false =>
      show claimedOf
          (saveUser { s with referrals := s.referrals ++ [⟨j, a.userId⟩] }
            (creditedInviter a j)) a.userId
        = a.rewardsClaimed
      simp [claimedOf_saveUser, hfind1]
  | true =>
      show claimedOf
          (sendDueRewards d
            (saveUser { s with referrals := s.referrals ++ [⟨j, a.userId⟩] }
              (creditedInviter a j))
            (creditedInviter a j)) a.userId
        = (sendDueRewardsUser d s.rewards (creditedInviter a j)).rewardsClaimed
      have hres := sendDueRewards_claimedOf d
        (saveUser { s with referrals := s.referrals ++ [⟨j, a.userId⟩] } (creditedInviter a j))
        (creditedInviter a j) (by rw [userId_creditedInviter]; exact hfind2)
      rw [userId_creditedInviter] at hres
      exact hres

/-- After the commit, the invite link still finds the inviter's (updated)
document, with the same id. -/
theorem commitState_findUserByLink (n : Bool) (d : String → Bool) (s : State) (j : Int)
    (a : User) (link : String) (hfla : findUserByLink s link = some a)
    (hal : a.inviteLink = some link) :
    ∃ b : User, findUserByLink (commitState n d s j a) link = some b ∧
      b.userId = a.userId := by
  unfold commitState
  have h1 : findUserByLink ({ s with referrals := s.referrals ++ [⟨j, a.userId⟩] } : State)
      link = some a := hfla
  have h2 : findUserByLink
      (saveUser { s with referrals := s.referrals ++ [⟨j, a.userId⟩] } (creditedInviter a j))
      link = some (creditedInviter a j) :=
    findUserByLink_saveUser _ _ link a h1 (by simp [hal]) (userId_creditedInviter a j).symm
  cases n with
  | false => exact ⟨creditedInviter a j, h2, userId_creditedInviter a j⟩
  | true =>
      show ∃ b, findUserByLink
          (sendDueRewards d
            (saveUser { s with referrals := s.referrals ++ [⟨j, a.userId⟩] }
              (creditedInviter a j))
            (creditedInviter a j)) link = some b ∧ b.userId = a.userId
      unfold sendDueRewards
      by_cases he : (dueRewards (saveUser { s with referrals := s.referrals ++ [⟨j, a.userId⟩] }
          (creditedInviter a j)).rewards (creditedInviter a j)).isEmpty = true
      · simp only [he, if_true]
        exact ⟨creditedInviter a j, h2, userId_creditedInviter a j⟩
      · simp only [he, if_false]
        refine ⟨_, findUserByLink_saveUser _ _ link (creditedInviter a j) h2
          (by simp [hal]) (by simp), ?_⟩
        simp

/-- One processed `chat_member` event keeps every joined identity's record
count at most one. -/
theorem referralCount_le_one_step (cfg : Config) (n : Bool) (d : String → Bool)
    (s : State) (e : ChatMemberEvent) (j : Int) (h : referralCount s j ≤ 1) :
    referralCount (processChatMember cfg n d s e) j ≤ 1 := by
  cases hc : channelGuardPasses cfg.channel e with
  | false => rw [pcm_channel_fail cfg n d s e hc]; exact h
  | true =>
  cases hm : becomesMember e with
  | false => rw [pcm_not_member cfg n d s e hm]; exact h
  | true =>
  cases hl : e.inviteLink with
  | none => rw [pcm_no_link cfg n d s e hl]; exact h
  | some link =>
  cases hf : findUserByLink s link with
  | none => rw [pcm_no_inviter cfg n d s e link hl hf]; exact h
  | some inviter =>
  by_cases hself : inviter.userId = e.joinedUserId
  · rw [pcm_self cfg n d s e link inviter hl hf hself]; exact h
  cases href : hasReferral s e.joinedUserId with
  | true => rw [pcm_duplicate cfg n d s e link inviter hl hf hself href]; exact h
  | false =>
    rw [pcm_commit cfg n d s e link inviter hc hm hl hf hself href]
    unfold referralCount
    rw [commitState_referrals, List.filter_append, List.length_append]
    by_cases hj : (e.joinedUserId == j) = true
    · have h0 : referralCount s j = 0 :=
        referralCount_eq_zero s j (by rwa [eq_of_beq hj] at href)
      unfold referralCount at h0
      rw [h0]
      simp [List.filter_cons, hj]
    · simp only [List.filter_cons]
      simp only [show ((⟨e.joinedUserId, inviter.userId⟩ : Referral).joinedUserId == j)
        = false from by simpa using hj]
      simpa using h

/-- Across any run of join events, every joined identity keeps at most one
committed record. -/
theorem referralCount_le_one_run (cfg : Config) (s : State)
    (evs : List (Bool × (String → Bool) × ChatMemberEvent)) (j : Int)
    (h : referralCount s j ≤ 1) : referralCount (processJoins cfg s evs) j ≤ 1 := by
  induction evs generalizing s with
  | nil => exact h
  | cons x t ih =>
      obtain ⟨n, d, e⟩ := x
      exact ih _ (referralCount_le_one_step cfg n d s e j h)

/-- **C1.** Attribution is at-most-once per joined identity: when a record
already exists for the joined identity the handler aborts with the whole
state unchanged (no profile field touched); delivering the same join event
twice commits exactly one record — the second run is a no-op — so the
inviter's credit count rises by exactly one in total; and across any
sequence of processed join events a joined identity's record count never
exceeds one. -/
theorem referral_attributed_at_most_once (cfg : Config) (s : State) (e : ChatMemberEvent)
    (link : String) (inviter : User) (n1 n2 : Bool) (d1 d2 : String → Bool)
    (hc : channelGuardPasses cfg.channel e = true)
    (hm : becomesMember e = true)
    (hl : e.inviteLink = some link)
    (hf : findUserByLink s link = some inviter)
    (hne : inviter.userId ≠ e.joinedUserId) :
    (hasReferral s e.joinedUserId = true → processChatMember cfg n1 d1 s e = s) ∧
    (hasReferral s e.joinedUserId = false →
      processChatMember cfg n2 d2 (processChatMember cfg n1 d1 s e) e
        = processChatMember cfg n1 d1 s e) ∧
    (hasReferral s e.joinedUserId = false → UsersNodup s →
      e.joinedUserId ∉ inviter.invitedUsers →
      inviter.invitesCount = inviter.invitedUsers.length →
      invitesCountOf (processChatMember cfg n2 d2 (processChatMember cfg n1 d1 s e) e)
          inviter.userId
        = invitesCountOf s inviter.userId + 1) ∧
    (∀ (evs : List (Bool × (String → Bool) × ChatMemberEvent)) (j : Int),
      referralCount s j ≤ 1 → referralCount (processJoins cfg s evs) j ≤ 1) := by
  have hf' : List.find? (fun u => u.inviteLink == some link) s.users = some inviter := hf
  have hil : inviter.inviteLink = some link :=
    eq_of_beq (@List.find?_some _ (fun u => u.inviteLink == some link) inviter s.users hf')
  have hsecond : hasReferral s e.joinedUserId = false →
      processChatMember cfg n2 d2 (processChatMember cfg n1 d1 s e) e
        = processChatMember cfg n1 d1 s e := by
    intro href
    rw [pcm_commit cfg n1 d1 s e link inviter hc hm hl hf hne href]
    obtain ⟨b, hfl2, hbid⟩ :=
      commitState_findUserByLink n1 d1 s e.joinedUserId inviter link hf hil
    exact pcm_duplicate cfg n2 d2 _ e link b hl hfl2
      (by rw [hbid]; exact hne)
      (hasReferral_commitState n1 d1 s e.joinedUserId inviter)
  refine ⟨?_, hsecond, ?_, ?_⟩
  · intro href
    exact pcm_duplicate cfg n1 d1 s e link inviter hl hf hne href
  · intro href hn hnotmem hinv
    have hmem : inviter ∈ s.users := List.mem_of_find?_eq_some hf
    have hfind : findUserById s inviter.userId = some inviter :=
      findUserById_of_mem s inviter hmem hn
    rw [hsecond href, pcm_commit cfg n1 d1 s e link inviter hc hm hl hf hne href]
    rw [commitState_invitesCountOf n1 d1 s e.joinedUserId inviter hfind]
    rw [invitedUsers_creditedInviter, if_neg hnotmem]
    unfold invitesCountOf
    rw [hfind]
    simp [hinv]
  · intro evs j h1
    exact referralCount_le_one_run cfg s evs j h1

/-- Witness for `referral_attributed_at_most_once`: on the one-profile
state, processing `matchingJoin` twice equals processing it once. -/
theorem referral_attributed_at_most_once_witness :
    processChatMember handleConfig true (fun _ => true)
        (processChatMember handleConfig true (fun _ => true) oneInviterState matchingJoin)
        matchingJoin
      = processChatMember handleConfig true (fun _ => true) oneInviterState matchingJoin :=
  (referral_attributed_at_most_once handleConfig oneInviterState matchingJoin "L"
      ⟨7, some "inv", some "L", [], 0, []⟩ true true (fun _ => true) (fun _ => true)
      (by decide) (by decide) (by decide) (by decide) (by decide)).2.1 (by decide)

/-- **C4.** On a successful ledger insert the record is appended, the
joined identity is added to the inviter's `invitedUsers` (a no-op if
already present), the credit count is recomputed as that set's size and
persisted — all of this for **every** notification/delivery outcome, so a
failed DM or delivery rolls nothing back; when the notification succeeds
the dispatcher runs (the stored claimed list becomes the delivery loop's
result), and when it fails dispatch is skipped and the claimed list is
untouched. -/
theorem commit_updates_profile_and_dispatches (cfg : Config) (s : State)
    (e : ChatMemberEvent) (link : String) (inviter : User) (n : Bool)
    (d : String → Bool)
    (hc : channelGuardPasses cfg.channel e = true)
    (hm : becomesMember e = true)
    (hl : e.inviteLink = some link)
    (hf : findUserByLink s link = some inviter)
    (hne : inviter.userId ≠ e.joinedUserId)
    (href : hasReferral s e.joinedUserId = false)
    (hn : UsersNodup s) :
    (processChatMember cfg n d s e).referrals
        = s.referrals ++ [⟨e.joinedUserId, inviter.userId⟩] ∧
    invitedUsersOf (processChatMember cfg n d s e) inviter.userId
        = (if e.joinedUserId ∈ invitedUsersOf s inviter.userId
           then invitedUsersOf s inviter.userId
           else invitedUsersOf s inviter.userId ++ [e.joinedUserId]) ∧
    invitesCountOf (processChatMember cfg n d s e) inviter.userId
        = (invitedUsersOf (processChatMember cfg n d s e) inviter.userId).length ∧
    (n = true →
      claimedOf (processChatMember cfg n d s e) inviter.userId
        = (sendDueRewardsUser d s.rewards
            (creditedInviter inviter e.joinedUserId)).rewardsClaimed) ∧
    (n = false →
      claimedOf (processChatMember cfg n d s e) inviter.userId
        = inviter.rewardsClaimed) := by
  have hmem : inviter ∈ s.users := List.mem_of_find?_eq_some hf
  have hfind : findUserById s inviter.userId = some inviter :=
    findUserById_of_mem s inviter hmem hn
  have hinvOf : invitedUsersOf s inviter.userId = inviter.invitedUsers := by
    unfold invitedUsersOf
    rw [hfind]
    rfl
  rw [pcm_commit cfg n d s e link inviter hc hm hl hf hne href]
  refine ⟨commitState_referrals n d s e.joinedUserId inviter, ?_, ?_, ?_, ?_⟩
  · rw [commitState_invitedUsersOf n d s e.joinedUserId inviter hfind,
      invitedUsers_creditedInviter, hinvOf]
  · rw [commitState_invitesCountOf n d s e.joinedUserId inviter hfind,
      commitState_invitedUsersOf n d s e.joinedUserId inviter hfind]
  · intro hn1
    subst hn1
    rw [commitState_claimedOf true d s e.joinedUserId inviter hfind]
    simp
  · intro hn0
    subst hn0
    rw [commitState_claimedOf false d s e.joinedUserId inviter hfind]
    simp

/-- Witness for `commit_updates_profile_and_dispatches`: the record
`\x7b joined 42, inviter 7 \x7d` is committed on the one-profile state. -/
theorem commit_updates_profile_witness :
    (processChatMember handleConfig true (fun _ => true) oneInviterState matchingJoin).referrals
      = oneInviterState.referrals ++ [⟨42, 7⟩] :=
  (commit_updates_profile_and_dispatches handleConfig oneInviterState matchingJoin "L"
      ⟨7, some "inv", some "L", [], 0, []⟩ true (fun _ => true)
      (by decide) (by decide) (by decide) (by decide) (by decide) (by decide)
      (by unfold UsersNodup; decide)).1
